import Mathlib

set_option linter.unusedVariables false

/-!
Verification development for the NEXUS swarm coordination core
(src/nexus/agents: task.py, consensus.py, message_bus.py, pool.py,
orchestrator.py).

The Python code is shallowly embedded: Python dicts (which preserve
insertion order and overwrite in place) are association lists over String
keys; mutation is explicit state passing; `asyncio` concurrency is
linearized (see the orchestrator section); floats used for vote
confidences are modelled as rationals; wall-clock timestamp fields
(created_at / completed_at) are omitted since no observable behaviour in
scope depends on them; opaque `Any` payloads are modelled as `String`.
-/

namespace Nexus

/-- Python dict read `d.get(k)` on an insertion-ordered association list. -/
def dictGet {α : Type} (d : List (String × α)) (k : String) : Option α :=
  match d with
  | [] => none
  | (k', v) :: rest => if k' = k then some v else dictGet rest k

/-- Python dict assignment `d[k] = v`: if the key is present its (first)
binding is overwritten in place, otherwise the binding is appended at the
end, mirroring insertion-order semantics of Python dicts. -/
def dictSet {α : Type} (d : List (String × α)) (k : String) (v : α) :
    List (String × α) :=
  match d with
  | [] => [(k, v)]
  | (k', v') :: rest =>
      if k' = k then (k, v) :: rest else (k', v') :: dictSet rest k v

/-- In-place mutation of the object stored under key `k`
(`obj = d.get(k); if obj: mutate obj`): a no-op when the key is absent. -/
def dictModify {α : Type} (d : List (String × α)) (k : String) (f : α → α) :
    List (String × α) :=
  match d with
  | [] => []
  | (k', v) :: rest =>
      if k' = k then (k', f v) :: rest else (k', v) :: dictModify rest k f

/-- `d.values()` in insertion order. -/
def dictValues {α : Type} (d : List (String × α)) : List α :=
  d.map Prod.snd

/-! ## task.py — Task model and DAG -/

/-- `TaskStatus` from task.py. -/
inductive TaskStatus
  | pending
  | in_progress
  | completed
  | failed
  | cancelled
deriving DecidableEq

/-- `Task` from task.py. The two datetime fields are omitted (wall-clock
values, unobservable in this development); `result : Any` is modelled as
an optional string payload. -/
structure Task where
  id : String
  title : String
  description : String
  status : TaskStatus := TaskStatus.pending
  parent_id : Option String := none
  depends_on : List String := []
  assigned_to : Option String := none
  preferred_role : Option String := none
  result : Option String := none
  error : Option String := none
deriving DecidableEq

/-- `TaskDAG._tasks`: a Python dict from task id to Task. -/
abbrev TaskDAG : Type := List (String × Task)

/-- `TaskDAG.add_task`: `self._tasks[task.id] = task`. -/
def add_task (dag : TaskDAG) (task : Task) : TaskDAG :=
  dictSet dag task.id task

/-- `TaskDAG.get_task`. -/
def get_task (dag : TaskDAG) (task_id : String) : Option Task :=
  dictGet dag task_id

/-- `TaskDAG.all_tasks`: `list(self._tasks.values())`. -/
def all_tasks (dag : TaskDAG) : List Task :=
  dictValues dag

/-- The dependency check inside `TaskDAG.get_ready_tasks`:
`self._tasks.get(dep_id) is not None and
 self._tasks[dep_id].status == TaskStatus.COMPLETED`. -/
def dep_completed (dag : TaskDAG) (dep_id : String) : Bool :=
  match dictGet dag dep_id with
  | none => false
  | some dep => dep.status = TaskStatus.completed

/-- `TaskDAG.get_ready_tasks`: pending tasks whose dependencies are all
present and completed, in insertion order. -/
def get_ready_tasks (dag : TaskDAG) : List Task :=
  (all_tasks dag).filter fun task =>
    task.status = TaskStatus.pending
      && task.depends_on.all (dep_completed dag)

/-- `TaskDAG.mark_in_progress`. -/
def mark_in_progress (dag : TaskDAG) (task_id : String) : TaskDAG :=
  dictModify dag task_id fun t => { t with status := TaskStatus.in_progress }

/-- `TaskDAG.mark_completed` (returns the newly ready tasks together with
the updated graph; the datetime write is dropped). -/
def mark_completed (dag : TaskDAG) (task_id : String)
    (result : Option String) : List Task × TaskDAG :=
  match dictGet dag task_id with
  | none => ([], dag)
  | some _ =>
      let dag' := dictModify dag task_id fun t =>
        { t with status := TaskStatus.completed, result := result }
      (get_ready_tasks dag', dag')

/-- `TaskDAG.mark_failed`. -/
def mark_failed (dag : TaskDAG) (task_id : String) (error : String) :
    TaskDAG :=
  dictModify dag task_id fun t =>
    { t with status := TaskStatus.failed, error := some error }

/-- `TaskDAG.is_complete`. -/
def is_complete (dag : TaskDAG) : Bool :=
  (all_tasks dag).all fun t =>
    t.status = TaskStatus.completed
      || t.status = TaskStatus.failed
      || t.status = TaskStatus.cancelled

/-- `TaskDAG.get_results`. -/
def get_results (dag : TaskDAG) : List (String × String) :=
  (all_tasks dag).filterMap fun t =>
    match t.result with
    | some r => if t.status = TaskStatus.completed then some (t.id, r) else none
    | none => none

/-- `TaskDAG.summary` (status icon, truncated id, title, dependency and
assignment suffixes, joined by newlines). -/
def task_summary_line (t : Task) : String :=
  let icon :=
    match t.status with
    | TaskStatus.pending => "[ ]"
    | TaskStatus.in_progress => "[~]"
    | TaskStatus.completed => "[x]"
    | TaskStatus.failed => "[!]"
    | TaskStatus.cancelled => "[-]"
  let deps :=
    if t.depends_on.isEmpty then ""
    else " (depends on: " ++ String.intercalate ", " t.depends_on ++ ")"
  let assigned :=
    match t.assigned_to with
    | some a => " -> " ++ a
    | none => ""
  "  " ++ icon ++ " " ++ t.id.take 8 ++ ": " ++ t.title ++ deps ++ assigned

/-- `TaskDAG.summary`. -/
def dag_summary (dag : TaskDAG) : String :=
  String.intercalate "\n" ((all_tasks dag).map task_summary_line)

/-! ## consensus.py — voting and agreement -/

/-- `VoteType` from consensus.py. -/
inductive VoteType
  | approve
  | reject
  | abstain
deriving DecidableEq

/-- `Vote` from consensus.py; the float confidence is modelled as a
rational in [0, 1]. -/
structure Vote where
  agent_id : String
  vote : VoteType
  reasoning : String := ""
  confidence : ℚ := 1/2
deriving DecidableEq

/-- `Proposal` from consensus.py; the opaque content is a string. -/
structure Proposal where
  proposal_id : String
  title : String
  content : String
  submitted_by : String
  votes : List Vote := []
  resolved : Bool := false
  accepted : Bool := false
deriving DecidableEq

/-- The `approve` entry of `Proposal.vote_counts`. -/
def count_approve (p : Proposal) : ℕ :=
  (p.votes.filter fun v => v.vote = VoteType.approve).length

/-- The `reject` entry of `Proposal.vote_counts`. -/
def count_reject (p : Proposal) : ℕ :=
  (p.votes.filter fun v => v.vote = VoteType.reject).length

/-- `ConsensusStrategy` from consensus.py. -/
inductive ConsensusStrategy
  | majority
  | supermajority
  | unanimous
  | weighted
deriving DecidableEq

/-- `ConsensusEngine` state: the strategy and the proposal dict. -/
structure ConsensusEngine where
  strategy : ConsensusStrategy := ConsensusStrategy.majority
  proposals : List (String × Proposal) := []
deriving DecidableEq

/-- `ConsensusEngine.create_proposal`. -/
def create_proposal (e : ConsensusEngine) (proposal_id title content
    submitted_by : String) : Proposal × ConsensusEngine :=
  let p : Proposal :=
    { proposal_id := proposal_id, title := title, content := content,
      submitted_by := submitted_by }
  (p, { e with proposals := dictSet e.proposals proposal_id p })

/-- `ConsensusEngine.cast_vote`: returns the vote (the pre-existing one on
a double vote) or none, together with the updated engine. -/
def cast_vote (e : ConsensusEngine) (proposal_id agent_id : String)
    (vote : VoteType) (reasoning : String := "") (confidence : ℚ := 1/2) :
    Option Vote × ConsensusEngine :=
  match dictGet e.proposals proposal_id with
  | none => (none, e)
  | some proposal =>
      if proposal.resolved then (none, e)
      else
        match proposal.votes.find? (fun ex => ex.agent_id = agent_id) with
        | some existing => (some existing, e)
        | none =>
            let v : Vote :=
              { agent_id := agent_id, vote := vote, reasoning := reasoning,
                confidence := confidence }
            (some v,
              { e with
                  proposals := dictSet e.proposals proposal_id
                    { proposal with votes := proposal.votes ++ [v] } })

/-- `ConsensusEngine._evaluate`: the strategy arithmetic is carried out in
ℚ exactly as written in the source (`/ 2`, `* 2 / 3`). -/
def evaluate (strategy : ConsensusStrategy) (proposal : Proposal) : Bool :=
  let approve := count_approve proposal
  let reject := count_reject proposal
  let total_cast := approve + reject
  if total_cast = 0 then false
  else
    match strategy with
    | ConsensusStrategy.majority => (approve : ℚ) > (total_cast : ℚ) / 2
    | ConsensusStrategy.supermajority =>
        (approve : ℚ) ≥ (total_cast : ℚ) * 2 / 3
    | ConsensusStrategy.unanimous => reject = 0 && approve > 0
    | ConsensusStrategy.weighted =>
        let weighted_approve :=
          ((proposal.votes.filter fun v => v.vote = VoteType.approve).map
            Vote.confidence).sum
        let weighted_reject :=
          ((proposal.votes.filter fun v => v.vote = VoteType.reject).map
            Vote.confidence).sum
        weighted_approve > weighted_reject

/-- The non-abstain votes counted by `ConsensusEngine.resolve`. -/
def non_abstain (proposal : Proposal) : List Vote :=
  proposal.votes.filter fun v => ¬ v.vote = VoteType.abstain

/-- `ConsensusEngine.resolve`: true if accepted, false if rejected, none
if the proposal is unknown or has fewer non-abstain votes than
`min_voters`. -/
def resolve (e : ConsensusEngine) (proposal_id : String)
    (min_voters : ℕ := 1) : Option Bool × ConsensusEngine :=
  match dictGet e.proposals proposal_id with
  | none => (none, e)
  | some proposal =>
      if (non_abstain proposal).length < min_voters then (none, e)
      else
        let accepted := evaluate e.strategy proposal
        (some accepted,
          { e with
              proposals := dictSet e.proposals proposal_id
                { proposal with resolved := true, accepted := accepted } })

/-- `ConsensusEngine.pending_proposals`. -/
def pending_proposals (e : ConsensusEngine) : List Proposal :=
  (dictValues e.proposals).filter fun p => ¬ p.resolved

/-! ## message_bus.py — agent message routing -/

/-- `AgentMessage` from base.py (opaque content modelled as a string). -/
structure AgentMessage where
  from_agent : String
  to_agent : String
  content : String
  msg_type : String := "generic"
  in_reply_to : Option String := none
deriving DecidableEq

/-- `MessageBus` state. The registered-agent dict maps an agent id to the
agent's inbox queue (`BaseAgent._inbox`, an ordered queue whose put
appends); the event-bus collaborator is not modelled (its publication has
no effect on the bus state). -/
structure MessageBus where
  agents : List (String × List AgentMessage) := []
  topics : List (String × List String) := []
  dead_letters : List AgentMessage := []
  message_count : ℕ := 0
deriving DecidableEq

/-- `MessageBus.register_agent` (a fresh agent carries an empty inbox). -/
def register_agent (bus : MessageBus) (agent_id : String) : MessageBus :=
  { bus with agents := dictSet bus.agents agent_id [] }

/-- `MessageBus.send`: increments the message counter, then either
enqueues into the recipient's inbox (returning delivered=true) or appends
to the dead-letter list (returning delivered=false). -/
def send (bus : MessageBus) (message : AgentMessage) :
    Bool × MessageBus :=
  let bus := { bus with message_count := bus.message_count + 1 }
  match dictGet bus.agents message.to_agent with
  | none =>
      (false, { bus with dead_letters := bus.dead_letters ++ [message] })
  | some inbox =>
      (true,
        { bus with
            agents := dictSet bus.agents message.to_agent
              (inbox ++ [message]) })

/-- `MessageBus.broadcast`: enqueue to every registered agent except the
sender, returning the delivery count. -/
def broadcast (bus : MessageBus) (from_agent content : String)
    (msg_type : String := "broadcast") : ℕ × MessageBus :=
  let step := fun (acc : ℕ × List (String × List AgentMessage))
      (entry : String × List AgentMessage) =>
    if entry.1 = from_agent then (acc.1, acc.2 ++ [entry])
    else
      let msg : AgentMessage :=
        { from_agent := from_agent, to_agent := entry.1, content := content,
          msg_type := msg_type }
      (acc.1 + 1, acc.2 ++ [(entry.1, entry.2 ++ [msg])])
  let r := bus.agents.foldl step (0, [])
  (r.1, { bus with agents := r.2 })

/-! ## pool.py — agent pool

`AgentPool.__init__` stores `asyncio.Semaphore(max_agents)` in
`self._semaphore`; the field is modelled by the counter `semaphore`
holding the semaphore's current value. No operation of the pool or of the
orchestrator ever acquires or releases it, so no definition below touches
the field. The random uuid4 suffix of spawned agent ids is modelled by a
deterministic fresh counter. -/

/-- `AgentRole` from base.py. -/
inductive AgentRole
  | planner
  | executor
  | researcher
  | critic
  | coordinator
deriving DecidableEq

/-- `AgentRole.value`. -/
def AgentRole.value : AgentRole → String
  | AgentRole.planner => "planner"
  | AgentRole.executor => "executor"
  | AgentRole.researcher => "researcher"
  | AgentRole.critic => "critic"
  | AgentRole.coordinator => "coordinator"

/-- `AgentState` from base.py. -/
inductive AgentState
  | idle
  | working
  | waiting
  | suspended
deriving DecidableEq

/-- The pool-relevant part of a `BaseAgent` (id, role, lifecycle state). -/
structure PoolAgent where
  agent_id : String
  role : AgentRole
  state : AgentState := AgentState.idle
deriving DecidableEq

/-- `AgentPool` state. -/
structure AgentPool where
  max_agents : ℕ := 5
  agents : List (String × PoolAgent) := []
  semaphore : ℕ
  fresh : ℕ := 0
deriving DecidableEq

/-- `AgentPool.spawn`: creates an idle agent with a fresh id
`role.value + suffix` and registers it. -/
def spawn (pool : AgentPool) (role : AgentRole) : PoolAgent × AgentPool :=
  let agent_id := role.value ++ "_" ++ toString pool.fresh
  let agent : PoolAgent := { agent_id := agent_id, role := role }
  (agent,
    { pool with
        agents := dictSet pool.agents agent_id agent,
        fresh := pool.fresh + 1 })

/-- `AgentPool.get_idle`: the first registered agent (in insertion order)
of the given role in the idle state. -/
def get_idle (pool : AgentPool) (role : AgentRole) : Option PoolAgent :=
  (dictValues pool.agents).find? fun a =>
    a.role = role && a.state = AgentState.idle

/-- `AgentPool.acquire`: reuse an idle agent of the role or spawn a new
one, transitioning it to the working state. Never blocks and never
consults the semaphore. -/
def acquire (pool : AgentPool) (role : AgentRole) : PoolAgent × AgentPool :=
  let to_working := fun (a : PoolAgent) => { a with state := AgentState.working }
  match get_idle pool role with
  | some agent =>
      (to_working agent,
        { pool with agents := dictModify pool.agents agent.agent_id to_working })
  | none =>
      let sp := spawn pool role
      (to_working sp.1,
        { sp.2 with agents := dictModify sp.2.agents sp.1.agent_id to_working })

/-- `AgentPool.release`: return an agent to idle (no-op for unknown ids). -/
def release (pool : AgentPool) (agent_id : String) : AgentPool :=
  { pool with
      agents := dictModify pool.agents agent_id
        fun a => { a with state := AgentState.idle } }

/-- The number of agents currently in the working state. -/
def working_count (pool : AgentPool) : ℕ :=
  ((dictValues pool.agents).filter fun a =>
    a.state = AgentState.working).length

/-! ## orchestrator.py — SwarmOrchestrator.execute_goal

The async generator is modelled as a function from its inputs to the list
of yielded updates, the way the generator ended (normally, or by an
exception propagating out of a completion-backend call), and the final
orchestrator state. The completion backend is an oracle indexed by call
order; an `Except.error` models the hard error the ModelRouter raises once
every provider in the fallback chain has failed. Prompt construction
(including the dependency context concatenated in `_execute_task`) only
shapes oracle inputs and is therefore not modelled; JSON parsing of
coordinator/planner output is abstracted into the two parse parameters,
whose failure triggers exactly the source's fallbacks. The concurrent
wave (`asyncio.gather`) is linearized: each task coroutine runs its
synchronous prefix (mark in progress, acquire, register) and issues its
backend call, all before any release happens — matching the asyncio
schedule in which every coroutine reaches its first await before any
completes — and results are then processed in ready order exactly as the
source's `zip(ready, results)` loop does. -/

/-- `SwarmUpdate` from orchestrator.py. -/
structure SwarmUpdate where
  update_type : String
  content : String
  task_id : Option String := none
  agent_id : Option String := none
  is_final : Bool := false
deriving DecidableEq

/-- How a run of the `execute_goal` generator ended: normally, or with an
exception from the completion backend propagating to the caller. -/
inductive RunExit
  | finished
  | raised (error : String)
deriving DecidableEq

/-- The completion backend: the n-th `llm.complete` call of the run either
returns content or raises the providers-exhausted error. -/
def Oracle : Type := ℕ → Except String String

/-- Mutable state owned by one orchestrator run. -/
structure OrchState where
  pool : AgentPool
  bus : MessageBus
  dag : TaskDAG
  final_results : List (String × String) := []
  calls : ℕ := 0
deriving DecidableEq

/-- One task definition as parsed from the planner's JSON array
(`td.get(...)` defaults included); `PlannerAgent.decompose` turns each
into a `Task` whose remaining fields take their defaults. -/
structure TaskDef where
  id : String := ""
  title : String := ""
  description : String := ""
  depends_on : List String := []
  preferred_role : Option String := none
deriving DecidableEq

/-- The `Task(...)` construction in `PlannerAgent.decompose`. -/
def mk_task (td : TaskDef) : Task :=
  { id := td.id, title := td.title, description := td.description,
    depends_on := td.depends_on, preferred_role := td.preferred_role }

/-- `PlannerAgent.decompose` after its completion call: build the DAG from
the parsed task definitions, or fall back to a single executor task
wrapping the whole goal. The fallback task's auto-generated uuid id is
modelled by a fixed fresh name (the graph is empty when it is added, and
at most one task id is auto-generated per run). -/
def decompose_dag (parse_tasks : String → Option (List TaskDef))
    (goal response : String) : TaskDAG :=
  match parse_tasks response with
  | some tds => tds.foldl (fun d td => add_task d (mk_task td)) ([] : TaskDAG)
  | none =>
      add_task ([] : TaskDAG)
        (mk_task
          { id := "task_fallback", title := "Execute goal",
            description := goal, preferred_role := some "executor" })

/-- `ROLE_MAP` from orchestrator.py. -/
def role_map (s : String) : Option AgentRole :=
  if s = "planner" then some AgentRole.planner
  else if s = "executor" then some AgentRole.executor
  else if s = "researcher" then some AgentRole.researcher
  else if s = "critic" then some AgentRole.critic
  else if s = "coordinator" then some AgentRole.coordinator
  else none

/-- `role_str = task.preferred_role or "executor"` followed by
`ROLE_MAP.get(role_str, AgentRole.EXECUTOR)`; Python's `or` treats the
empty string as falsy. -/
def role_of (task : Task) : AgentRole :=
  let role_str :=
    match task.preferred_role with
    | none => "executor"
    | some s => if s = "" then "executor" else s
  (role_map role_str).getD AgentRole.executor

/-- The synchronous prefix of `_execute_task` plus its completion call:
mark the task in progress, acquire an agent of the task's role, record
the assignment, register the agent on the bus, and issue the backend
call. Returns the acquired agent id and the call outcome. -/
def launch_task (oracle : Oracle) (st : OrchState) (task : Task) :
    (String × Except String String) × OrchState :=
  let dag1 := mark_in_progress st.dag task.id
  let ac := acquire st.pool (role_of task)
  let dag2 := dictModify dag1 task.id
    fun t => { t with assigned_to := some ac.1.agent_id }
  let bus1 := register_agent st.bus ac.1.agent_id
  let res := oracle st.calls
  ((ac.1.agent_id, res),
    { st with dag := dag2, pool := ac.2, bus := bus1, calls := st.calls + 1 })

/-- Launch every ready task of the wave (all acquisitions happen before
any release, as under `asyncio.gather`). -/
def launch_wave (oracle : Oracle) (st : OrchState) :
    List Task → List (Task × String × Except String String) × OrchState
  | [] => ([], st)
  | t :: rest =>
      let r := launch_task oracle st t
      let rs := launch_wave oracle r.2 rest
      ((t, r.1.1, r.1.2) :: rs.1, rs.2)

/-- The `finally: self._pool.release(...)` of each wave coroutine, run as
each task's backend call settles. -/
def release_wave (pool : AgentPool)
    (launched : List (Task × String × Except String String)) : AgentPool :=
  launched.foldl (fun p e => release p e.2.1) pool

/-- The `for task, result in zip(ready, results)` loop: an exception
becomes a failed transition plus a non-terminal error update; a result is
recorded in the shared results map and completes the task with a
task_done update. -/
def process_wave_results (st : OrchState) :
    List (Task × String × Except String String) →
      List SwarmUpdate × OrchState
  | [] => ([], st)
  | (task, _aid, Except.error e) :: rest =>
      let dag' := mark_failed st.dag task.id e
      let u : SwarmUpdate :=
        { update_type := "error",
          content := "Task '" ++ task.title ++ "' failed: " ++ e,
          task_id := some task.id }
      let r := process_wave_results { st with dag := dag' } rest
      (u :: r.1, r.2)
  | (task, _aid, Except.ok result) :: rest =>
      let fr := dictSet st.final_results task.id result
      let dag' := (mark_completed st.dag task.id (some result)).2
      let u : SwarmUpdate :=
        { update_type := "task_done",
          content := "Completed: " ++ task.title,
          task_id := some task.id }
      let r :=
        process_wave_results { st with dag := dag', final_results := fr } rest
      (u :: r.1, r.2)

/-- The error message `mark_failed` receives in the deadlock branch. -/
def deadlock_error : String := "Deadlock — unresolvable dependencies"

/-- The single error update the deadlock branch yields. -/
def deadlock_update : SwarmUpdate :=
  { update_type := "error",
    content := "Deadlock detected — some tasks have unmet dependencies" }

/-- The pending tasks (`remaining`) of the deadlock branch. -/
def pending_tasks (dag : TaskDAG) : List Task :=
  (all_tasks dag).filter fun t => t.status = TaskStatus.pending

/-- The status update announcing a wave. -/
def wave_update (ready : List Task) : SwarmUpdate :=
  { update_type := "status",
    content := "Executing wave: " ++
      String.intercalate ", " (ready.map Task.title) }

/-- The `while not dag.is_complete` wave loop. The fuel argument bounds
the number of iterations; the returned flag records whether the loop
exited through its own conditions (true) rather than by exhausting fuel
(false). For every graph the orchestrator actually builds the loop
strictly decreases the number of pending tasks per wave, so the fuel
passed by execute_goal is never exhausted (wave_loop_fuel_adequate
below); Python's unbounded loop agrees with the model on all such
graphs. -/
def wave_loop (oracle : Oracle) :
    ℕ → OrchState → List SwarmUpdate × OrchState × Bool
  | 0, st => ([], st, false)
  | fuel + 1, st =>
      if is_complete st.dag then ([], st, true)
      else
        match get_ready_tasks st.dag with
        | [] =>
            let remaining := pending_tasks st.dag
            if remaining.isEmpty then ([], st, true)
            else
              let dag' := remaining.foldl
                (fun d t => mark_failed d t.id deadlock_error) st.dag
              ([deadlock_update], { st with dag := dag' }, true)
        | ready =>
            let lw := launch_wave oracle st ready
            let pool' := release_wave lw.2.pool lw.1
            let pr := process_wave_results { lw.2 with pool := pool' } lw.1
            let rest := wave_loop oracle fuel pr.2
            (wave_update ready :: pr.1 ++ rest.1, rest.2.1, rest.2.2)

/-- Step 5 of the run: the synthesis status update, the coordinator's
dedicated synthesis completion call (whose failure propagates), and the
final terminal result update. -/
def synthesis_step (oracle : Oracle) (ups : List SwarmUpdate)
    (st : OrchState) : List SwarmUpdate × RunExit × OrchState :=
  let ups' := ups ++
    [{ update_type := "status", content := "Synthesizing final answer..." }]
  match oracle st.calls with
  | Except.error e => (ups', RunExit.raised e, { st with calls := st.calls + 1 })
  | Except.ok final =>
      (ups' ++
        [{ update_type := "result", content := final, is_final := true }],
        RunExit.finished, { st with calls := st.calls + 1 })

/-- The per-run configuration: the abstracted JSON parsers (coordinator
evaluation => strategy and reasoning including the dict-get defaults;
planner decomposition => task definitions) and the constructor
parameters. -/
structure OrchConfig where
  parse_eval : String → Option (String × String)
  parse_tasks : String → Option (List TaskDef)
  max_agents : ℕ := 5
  enable_critic : Bool := true

/-- `SwarmOrchestrator.__init__`: fresh pool (with its untouched
semaphore), fresh bus, and the coordinator spawned and registered. -/
def init_state (max_agents : ℕ) : OrchState :=
  let pool0 : AgentPool := { max_agents := max_agents, semaphore := max_agents }
  let sp := spawn pool0 AgentRole.coordinator
  { pool := sp.2, bus := register_agent {} sp.1.agent_id, dag := [] }

/-- The direct path of the run: the handling status update, one clean
completion call (whose failure propagates), and the terminal result
update. -/
def direct_step (oracle : Oracle) (ups : List SwarmUpdate)
    (st : OrchState) : List SwarmUpdate × RunExit × OrchState :=
  let ups2 := ups ++
    [{ update_type := "status", content := "Handling directly..." }]
  match oracle st.calls with
  | Except.error e =>
      (ups2, RunExit.raised e, { st with calls := st.calls + 1 })
  | Except.ok content =>
      (ups2 ++
        [{ update_type := "result", content := content, is_final := true }],
        RunExit.finished, { st with calls := st.calls + 1 })

/-- Step 4 of the run, taken when the critic is enabled and at least one
task produced a result: acquire and register the critic, issue its review
completion call (whose failure propagates, with the critic never
released), release it, surface the truncated critique as a status update,
and fall through to synthesis. -/
def critic_step (oracle : Oracle) (ups : List SwarmUpdate)
    (st : OrchState) : List SwarmUpdate × RunExit × OrchState :=
  let ups5 := ups ++
    [{ update_type := "status", content := "Critic reviewing results..." }]
  let cr := acquire st.pool AgentRole.critic
  let bus5 := register_agent st.bus cr.1.agent_id
  let st5 := { st with pool := cr.2, bus := bus5 }
  match oracle st.calls with
  | Except.error e =>
      (ups5, RunExit.raised e, { st5 with calls := st5.calls + 1 })
  | Except.ok review =>
      let pool6 := release st5.pool cr.1.agent_id
      let st6 := { st5 with calls := st5.calls + 1, pool := pool6 }
      let ups6 := ups5 ++
        [{ update_type := "status",
           content := "Critic says: " ++ review.take 200 }]
      synthesis_step oracle ups6 st6

/-- The decompose-and-execute path: acquire and register the planner,
issue the decomposition call (whose failure propagates), build the graph
(with the single-task fallback on parse failure), release the planner,
announce the plan, run the wave loop, then the optional critic review and
the synthesis. -/
def swarm_step (oracle : Oracle) (cfg : OrchConfig) (goal : String)
    (ups : List SwarmUpdate) (st : OrchState) :
    List SwarmUpdate × RunExit × OrchState :=
  let ups2 := ups ++
    [{ update_type := "status", content := "Decomposing goal into tasks..." }]
  let ac := acquire st.pool AgentRole.planner
  let bus2 := register_agent st.bus ac.1.agent_id
  let st2 := { st with pool := ac.2, bus := bus2 }
  match oracle st.calls with
  | Except.error e =>
      (ups2, RunExit.raised e, { st2 with calls := st2.calls + 1 })
  | Except.ok response2 =>
      let dag := decompose_dag cfg.parse_tasks goal response2
      let pool3 := release st2.pool ac.1.agent_id
      let st3 := { st2 with calls := st2.calls + 1, pool := pool3, dag := dag }
      let ups3 := ups2 ++
        [{ update_type := "status",
           content := "Plan created: " ++ toString dag.length ++
             " tasks\n" ++ dag_summary dag }]
      let wl := wave_loop oracle (dag.length + 1) st3
      let ups4 := ups3 ++ wl.1
      let st4 := wl.2.1
      if cfg.enable_critic && !st4.final_results.isEmpty then
        critic_step oracle ups4 st4
      else
        synthesis_step oracle ups4 st4

/-- `SwarmOrchestrator.execute_goal`: the full generator, returning the
yielded update sequence, how the generator ended, and the final state. -/
def execute_goal (oracle : Oracle) (cfg : OrchConfig)
    (goal context : String) : List SwarmUpdate × RunExit × OrchState :=
  let st0 := init_state cfg.max_agents
  let ups0 : List SwarmUpdate :=
    [{ update_type := "status", content := "Evaluating goal complexity..." }]
  match oracle st0.calls with
  | Except.error e => (ups0, RunExit.raised e, { st0 with calls := st0.calls + 1 })
  | Except.ok response =>
      let st1 := { st0 with calls := st0.calls + 1 }
      let sr := (cfg.parse_eval response).getD
        ("direct", "Fallback — treating as simple goal")
      let ups1 := ups0 ++
        [{ update_type := "status",
           content := "Strategy: **" ++ sr.1 ++ "** — " ++ sr.2 }]
      if sr.1 = "direct" then direct_step oracle ups1 st1
      else swarm_step oracle cfg goal ups1 st1

/-! ## Dictionary lemmas -/

theorem dictGet_dictSet_self {α : Type} (d : List (String × α)) (k : String)
    (v : α) : dictGet (dictSet d k v) k = some v := by
  induction d with
  | nil => simp [dictGet, dictSet]
  | cons e rest ih =>
      obtain ⟨k', v'⟩ := e
      by_cases h : k' = k
      · simp [dictGet, dictSet, h]
      · simp [dictGet, dictSet, h, ih]

theorem dictGet_dictSet_ne {α : Type} (d : List (String × α)) (k k' : String)
    (v : α) (h : k' ≠ k) : dictGet (dictSet d k v) k' = dictGet d k' := by
  have h' : ¬ k = k' := fun he => h he.symm
  induction d with
  | nil => simp [dictGet, dictSet, h']
  | cons e rest ih =>
      obtain ⟨k₀, v₀⟩ := e
      by_cases h0 : k₀ = k
      · subst h0
        simp [dictGet, dictSet, h']
      · simp [dictGet, dictSet, h0, ih]

theorem dictGet_dictModify_self {α : Type} (d : List (String × α))
    (k : String) (f : α → α) :
    dictGet (dictModify d k f) k = (dictGet d k).map f := by
  induction d with
  | nil => simp [dictGet, dictModify]
  | cons e rest ih =>
      obtain ⟨k', v'⟩ := e
      by_cases h : k' = k
      · simp [dictGet, dictModify, h]
      · simp [dictGet, dictModify, h, ih]

theorem dictGet_dictModify_ne {α : Type} (d : List (String × α))
    (k k' : String) (f : α → α) (h : k' ≠ k) :
    dictGet (dictModify d k f) k' = dictGet d k' := by
  have h' : ¬ k = k' := fun he => h he.symm
  induction d with
  | nil => simp [dictGet, dictModify]
  | cons e rest ih =>
      obtain ⟨k₀, v₀⟩ := e
      by_cases h0 : k₀ = k
      · subst h0
        simp [dictGet, dictModify, h']
      · simp [dictGet, dictModify, h0, ih]

theorem dictGet_mem {α : Type} {d : List (String × α)} {k : String} {v : α}
    (h : dictGet d k = some v) : (k, v) ∈ d := by
  induction d with
  | nil => simp [dictGet] at h
  | cons e rest ih =>
      obtain ⟨k', v'⟩ := e
      by_cases h0 : k' = k
      · subst h0
        simp [dictGet] at h
        subst h
        exact List.mem_cons_self _ _
      · simp [dictGet, h0] at h
        exact List.mem_cons_of_mem _ (ih h)

/-! ## C6 — get_ready_tasks -/

theorem dep_completed_iff (dag : TaskDAG) (dep : String) :
    dep_completed dag dep = true ↔
      ∃ u, get_task dag dep = some u ∧ u.status = TaskStatus.completed := by
  unfold dep_completed get_task
  cases h : dictGet dag dep <;> simp

/-- C6: get_ready_tasks returns exactly the pending tasks all of whose
dependency ids resolve to tasks present in the graph in the completed
state; in particular a task with a dependency on an id not present in the
graph is never returned. -/
theorem get_ready_tasks_spec (dag : TaskDAG) :
    (∀ t, t ∈ get_ready_tasks dag ↔
      t ∈ all_tasks dag ∧ t.status = TaskStatus.pending ∧
        ∀ dep ∈ t.depends_on, ∃ u, get_task dag dep = some u ∧
          u.status = TaskStatus.completed) ∧
    (∀ t ∈ get_ready_tasks dag, ∀ dep ∈ t.depends_on,
      get_task dag dep ≠ none) := by
  have main : ∀ t, t ∈ get_ready_tasks dag ↔
      t ∈ all_tasks dag ∧ t.status = TaskStatus.pending ∧
        ∀ dep ∈ t.depends_on, ∃ u, get_task dag dep = some u ∧
          u.status = TaskStatus.completed := by
    intro t
    unfold get_ready_tasks
    rw [List.mem_filter]
    simp only [Bool.and_eq_true, decide_eq_true_eq, List.all_eq_true]
    constructor
    · rintro ⟨hmem, hp, hall⟩
      exact ⟨hmem, hp, fun dep hd =>
        (dep_completed_iff dag dep).mp (hall dep hd)⟩
    · rintro ⟨hmem, hp, hall⟩
      exact ⟨hmem, hp, fun dep hd =>
        (dep_completed_iff dag dep).mpr (hall dep hd)⟩
  refine ⟨main, fun t ht dep hd => ?_⟩
  obtain ⟨u, hu, _⟩ := ((main t).mp ht).2.2 dep hd
  rw [hu]
  exact Option.noConfusion

def wTaskDone : Task :=
  { id := "t1", title := "A", description := "", status := TaskStatus.completed }

def wTaskReady : Task :=
  { id := "t2", title := "B", description := "", depends_on := ["t1"] }

def wDag : TaskDAG := [("t1", wTaskDone), ("t2", wTaskReady)]

theorem get_ready_tasks_spec_witness : wTaskReady ∈ get_ready_tasks wDag :=
  ((get_ready_tasks_spec wDag).1 wTaskReady).mpr
    ⟨by decide, by decide, fun dep hd => by
      simp [wTaskReady] at hd
      subst hd
      exact ⟨wTaskDone, rfl, rfl⟩⟩

/-! ## C4 — add_task -/

def taskA : Task := { id := "t1", title := "A", description := "" }

def taskB : Task := { id := "t1", title := "B", description := "" }

/-- C4 counterexample: adding a second task with an id already present in
the graph does not fail — the stored task is silently replaced (the graph
still has exactly one entry under that id, now the new task). -/
theorem add_task_silent_replace_counterexample :
    get_task (add_task (add_task ([] : TaskDAG) taskA) taskB) "t1" =
      some taskB ∧
    taskB ≠ taskA ∧
    (add_task (add_task ([] : TaskDAG) taskA) taskB).length = 1 :=
  ⟨rfl, by decide, rfl⟩

/-- C4 amended: add_task always succeeds; afterwards the task's id maps to
the newly added task (replacing any existing task with that id in place)
and all other ids are untouched. -/
theorem add_task_spec (dag : TaskDAG) (t : Task) :
    get_task (add_task dag t) t.id = some t ∧
    ∀ k, k ≠ t.id → get_task (add_task dag t) k = get_task dag k :=
  ⟨dictGet_dictSet_self dag t.id t,
    fun k hk => dictGet_dictSet_ne dag t.id k t hk⟩

theorem add_task_spec_witness :
    get_task (add_task wDag taskA) "t1" = some taskA ∧
    get_task (add_task wDag taskA) "t2" = get_task wDag "t2" :=
  ⟨(add_task_spec wDag taskA).1,
    (add_task_spec wDag taskA).2 "t2" (by decide)⟩


/-! ## Consensus engine lemmas (C3, C7, C8, C10) -/

theorem resolve_unknown_eq (e : ConsensusEngine) (pid : String)
    (min_voters : ℕ) (h : dictGet e.proposals pid = none) :
    resolve e pid min_voters = (none, e) := by
  unfold resolve
  rw [h]

theorem resolve_defer_eq (e : ConsensusEngine) (pid : String)
    (min_voters : ℕ) (p : Proposal) (hp : dictGet e.proposals pid = some p)
    (hlt : (non_abstain p).length < min_voters) :
    resolve e pid min_voters = (none, e) := by
  unfold resolve
  rw [hp]
  simp [hlt]

theorem resolve_quorum_eq (e : ConsensusEngine) (pid : String)
    (min_voters : ℕ) (p : Proposal) (hp : dictGet e.proposals pid = some p)
    (hge : min_voters ≤ (non_abstain p).length) :
    resolve e pid min_voters =
      (some (evaluate e.strategy p),
        { e with proposals := dictSet e.proposals pid { p with resolved := true, accepted := evaluate e.strategy p } }) := by
  unfold resolve
  rw [hp]
  simp [not_lt.mpr hge]

/-- C3: resolve counts only non-abstain votes against min_voters and
defers (returning none — an outcome distinct from a rejection — with the
engine unchanged) when there are too few; whenever the quorum check
passes while the approve+reject total is zero, the proposal is resolved
as rejected. -/
theorem resolve_quorum_spec (e : ConsensusEngine) (pid : String)
    (min_voters : ℕ) (p : Proposal)
    (hp : dictGet e.proposals pid = some p) :
    ((non_abstain p).length < min_voters →
      resolve e pid min_voters = (none, e)) ∧
    (min_voters ≤ (non_abstain p).length →
      count_approve p + count_reject p = 0 →
      (resolve e pid min_voters).1 = some false ∧
      ∃ p', dictGet (resolve e pid min_voters).2.proposals pid = some p' ∧
        p'.resolved = true ∧ p'.accepted = false) := by
  constructor
  · intro hlt
    exact resolve_defer_eq e pid min_voters p hp hlt
  · intro hge hzero
    have heval : evaluate e.strategy p = false := by
      unfold evaluate
      simp [hzero]
    rw [resolve_quorum_eq e pid min_voters p hp hge, heval]
    exact ⟨rfl, { p with resolved := true, accepted := false },
      dictGet_dictSet_self e.proposals pid _, rfl, rfl⟩

def wEngine : ConsensusEngine := (create_proposal {} "p1" "T" "c" "a").2

def wEngineAbstain : ConsensusEngine :=
  (cast_vote wEngine "p1" "b" VoteType.abstain "" 1).2

def wAbstainProposal : Proposal :=
  { proposal_id := "p1", title := "T", content := "c", submitted_by := "a",
    votes := [{ agent_id := "b", vote := VoteType.abstain, reasoning := "",
                confidence := 1 }] }

theorem resolve_quorum_spec_witness :
    resolve wEngineAbstain "p1" 1 = (none, wEngineAbstain) ∧
    (resolve wEngineAbstain "p1" 0).1 = some false := by
  have h := resolve_quorum_spec wEngineAbstain "p1" 1 wAbstainProposal rfl
  have h0 := resolve_quorum_spec wEngineAbstain "p1" 0 wAbstainProposal rfl
  exact ⟨h.1 (by decide), (h0.2 (by decide) (by decide)).1⟩

/-- The acceptance condition each strategy is specified to compute,
written as the spec states it, with the single amendment the code forces:
under supermajority a proposal with zero cast votes is rejected even
though 0 ≥ 0 × 2/3 holds, so that clause carries a positivity guard. -/
def strategy_accepts (s : ConsensusStrategy) (p : Proposal) : Prop :=
  match s with
  | ConsensusStrategy.majority =>
      (count_approve p : ℚ) >
        ((count_approve p + count_reject p : ℕ) : ℚ) / 2
  | ConsensusStrategy.supermajority =>
      0 < count_approve p + count_reject p ∧
      (count_approve p : ℚ) ≥
        ((count_approve p + count_reject p : ℕ) : ℚ) * 2 / 3
  | ConsensusStrategy.unanimous =>
      count_reject p = 0 ∧ 0 < count_approve p
  | ConsensusStrategy.weighted =>
      ((p.votes.filter fun v => v.vote = VoteType.reject).map
        Vote.confidence).sum <
      ((p.votes.filter fun v => v.vote = VoteType.approve).map
        Vote.confidence).sum

theorem evaluate_iff (s : ConsensusStrategy) (p : Proposal) :
    evaluate s p = true ↔ strategy_accepts s p := by
  unfold evaluate strategy_accepts
  by_cases hz : count_approve p + count_reject p = 0
  · have ha : count_approve p = 0 := Nat.eq_zero_of_add_eq_zero_right hz
    have hr : count_reject p = 0 := Nat.eq_zero_of_add_eq_zero_left hz
    have hfa : (p.votes.filter fun v => v.vote = VoteType.approve) = [] :=
      List.length_eq_zero.mp ha
    have hfr : (p.votes.filter fun v => v.vote = VoteType.reject) = [] :=
      List.length_eq_zero.mp hr
    cases s <;> simp [hz, ha, hr, hfa, hfr]
  · have hpos : 0 < count_approve p + count_reject p := Nat.pos_of_ne_zero hz
    cases s <;> simp [hz, hpos, Bool.and_eq_true, decide_eq_true_eq]

/-- C7 counterexample: under the supermajority strategy, with the quorum
met by min_voters = 0 and zero cast votes, the claim's acceptance
condition approve ≥ total_cast × 2/3 holds (0 ≥ 0), yet resolve rejects
the proposal. -/
def wSupEngine : ConsensusEngine :=
  (create_proposal { strategy := ConsensusStrategy.supermajority }
    "p1" "T" "c" "a").2

def wSupProposal : Proposal :=
  { proposal_id := "p1", title := "T", content := "c", submitted_by := "a" }

theorem supermajority_zero_cast_counterexample :
    dictGet wSupEngine.proposals "p1" = some wSupProposal ∧
    (0 : ℕ) ≤ (non_abstain wSupProposal).length ∧
    ((count_approve wSupProposal : ℚ) ≥
      ((count_approve wSupProposal + count_reject wSupProposal : ℕ) : ℚ)
        * 2 / 3) ∧
    (resolve wSupEngine "p1" 0).1 = some false := by
  refine ⟨rfl, by decide, ?_, rfl⟩
  have h1 : count_approve wSupProposal = 0 := rfl
  have h2 : count_reject wSupProposal = 0 := rfl
  rw [h1, h2]
  norm_num

/-- C7 amended: resolving a proposal whose quorum is met resolves it and
sets accepted per the configured strategy: majority iff approve >
total_cast/2; supermajority iff total_cast > 0 and approve ≥
total_cast × 2/3 (zero cast votes reject); unanimous iff no rejects and
at least one approve; weighted iff the approve-confidence sum strictly
exceeds the reject-confidence sum (abstains excluded), an exact tie
rejecting. -/
theorem resolve_strategy_spec (e : ConsensusEngine) (pid : String)
    (min_voters : ℕ) (p : Proposal)
    (hp : dictGet e.proposals pid = some p) (hres : p.resolved = false)
    (hq : min_voters ≤ (non_abstain p).length) :
    ∃ b, (resolve e pid min_voters).1 = some b ∧
      (∃ p', dictGet (resolve e pid min_voters).2.proposals pid = some p' ∧
        p'.resolved = true ∧ p'.accepted = b) ∧
      (b = true ↔ strategy_accepts e.strategy p) := by
  refine ⟨evaluate e.strategy p, ?_, ?_, evaluate_iff e.strategy p⟩
  · rw [resolve_quorum_eq e pid min_voters p hp hq]
  · rw [resolve_quorum_eq e pid min_voters p hp hq]
    exact ⟨{ p with resolved := true, accepted := evaluate e.strategy p },
      dictGet_dictSet_self e.proposals pid _, rfl, rfl⟩

def wUnanEngine : ConsensusEngine :=
  (cast_vote (cast_vote (create_proposal
      { strategy := ConsensusStrategy.unanimous } "p1" "T" "c" "a").2
    "p1" "b" VoteType.approve "" 1).2 "p1" "c" VoteType.approve "" 1).2

def wUnanProposal : Proposal :=
  { proposal_id := "p1", title := "T", content := "c", submitted_by := "a",
    votes := [{ agent_id := "b", vote := VoteType.approve, reasoning := "",
                confidence := 1 },
              { agent_id := "c", vote := VoteType.approve, reasoning := "",
                confidence := 1 }] }

theorem resolve_strategy_spec_witness :
    (resolve wUnanEngine "p1" 1).1 = some true := by
  obtain ⟨b, h1, h2, h3⟩ :=
    resolve_strategy_spec wUnanEngine "p1" 1 wUnanProposal rfl rfl (by decide)
  have hb : b = true := h3.mpr
    (show count_reject wUnanProposal = 0 ∧ 0 < count_approve wUnanProposal
      from ⟨by decide, by decide⟩)
  rw [h1, hb]

theorem cast_vote_unknown_eq (e : ConsensusEngine) (pid aid : String)
    (vt : VoteType) (r : String) (c : ℚ)
    (h : dictGet e.proposals pid = none) :
    cast_vote e pid aid vt r c = (none, e) := by
  unfold cast_vote
  rw [h]

theorem cast_vote_resolved_eq (e : ConsensusEngine) (pid aid : String)
    (vt : VoteType) (r : String) (c : ℚ) (p : Proposal)
    (hp : dictGet e.proposals pid = some p) (hres : p.resolved = true) :
    cast_vote e pid aid vt r c = (none, e) := by
  unfold cast_vote
  rw [hp]
  simp [hres]

theorem cast_vote_dup_eq (e : ConsensusEngine) (pid aid : String)
    (vt : VoteType) (r : String) (c : ℚ) (p : Proposal) (ex : Vote)
    (hp : dictGet e.proposals pid = some p) (hres : p.resolved = false)
    (hfind : p.votes.find? (fun v => v.agent_id = aid) = some ex) :
    cast_vote e pid aid vt r c = (some ex, e) := by
  unfold cast_vote
  rw [hp]
  simp [hres, hfind]

theorem cast_vote_new_eq (e : ConsensusEngine) (pid aid : String)
    (vt : VoteType) (r : String) (c : ℚ) (p : Proposal)
    (hp : dictGet e.proposals pid = some p) (hres : p.resolved = false)
    (hfind : p.votes.find? (fun v => v.agent_id = aid) = none) :
    cast_vote e pid aid vt r c =
      (some { agent_id := aid, vote := vt, reasoning := r, confidence := c },
        { e with proposals := dictSet e.proposals pid { p with votes := p.votes ++ [{ agent_id := aid, vote := vt, reasoning := r, confidence := c }] } }) := by
  unfold cast_vote
  rw [hp]
  simp [hres, hfind]

/-- C8: cast_vote records nothing for an unknown or already-resolved
proposal; a repeat vote by the same voter returns the original vote with
the engine (hence the vote list) unchanged; otherwise the new vote is
appended at the end of the proposal's vote list, in arrival order. -/
theorem cast_vote_spec (e : ConsensusEngine) (pid aid : String)
    (vt : VoteType) (reasoning : String) (conf : ℚ) :
    (dictGet e.proposals pid = none →
      cast_vote e pid aid vt reasoning conf = (none, e)) ∧
    (∀ p, dictGet e.proposals pid = some p → p.resolved = true →
      cast_vote e pid aid vt reasoning conf = (none, e)) ∧
    (∀ p ex, dictGet e.proposals pid = some p → p.resolved = false →
      p.votes.find? (fun v => v.agent_id = aid) = some ex →
      cast_vote e pid aid vt reasoning conf = (some ex, e)) ∧
    (∀ p, dictGet e.proposals pid = some p → p.resolved = false →
      p.votes.find? (fun v => v.agent_id = aid) = none →
      (cast_vote e pid aid vt reasoning conf).1 =
        some { agent_id := aid, vote := vt, reasoning := reasoning,
               confidence := conf } ∧
      dictGet (cast_vote e pid aid vt reasoning conf).2.proposals pid =
        some { p with votes := p.votes ++
          [{ agent_id := aid, vote := vt, reasoning := reasoning,
             confidence := conf }] }) := by
  refine ⟨cast_vote_unknown_eq e pid aid vt reasoning conf,
    fun p hp hres => cast_vote_resolved_eq e pid aid vt reasoning conf p hp hres,
    fun p ex hp hres hfind =>
      cast_vote_dup_eq e pid aid vt reasoning conf p ex hp hres hfind,
    fun p hp hres hfind => ?_⟩
  rw [cast_vote_new_eq e pid aid vt reasoning conf p hp hres hfind]
  exact ⟨rfl, dictGet_dictSet_self e.proposals pid _⟩

def wDupVote : Vote :=
  { agent_id := "b", vote := VoteType.approve, reasoning := "",
    confidence := 1 }

def wDupEngine : ConsensusEngine :=
  (cast_vote wEngine "p1" "b" VoteType.approve "" 1).2

def wDupProposal : Proposal :=
  { proposal_id := "p1", title := "T", content := "c", submitted_by := "a",
    votes := [wDupVote] }

theorem cast_vote_spec_witness :
    cast_vote wDupEngine "p1" "b" VoteType.reject "" 1 =
      (some wDupVote, wDupEngine) ∧
    cast_vote wEngine "nonexistent" "b" VoteType.approve "" 1 =
      (none, wEngine) :=
  ⟨(cast_vote_spec wDupEngine "p1" "b" VoteType.reject "" 1).2.2.1
      wDupProposal wDupVote rfl rfl rfl,
    (cast_vote_spec wEngine "nonexistent" "b" VoteType.approve "" 1).1 rfl⟩

/-- C10: resolve returns the same undetermined outcome, with every
proposal untouched, for an unknown proposal id as for an insufficient
quorum — the return value cannot distinguish the two — and it never
checks the resolved flag, so invoking it again on an already-resolved
proposal simply re-evaluates and returns a definite outcome. -/
theorem resolve_blind_spec (e : ConsensusEngine) (pid : String)
    (min_voters : ℕ) :
    (dictGet e.proposals pid = none →
      resolve e pid min_voters = (none, e)) ∧
    (∀ p, dictGet e.proposals pid = some p →
      (non_abstain p).length < min_voters →
      resolve e pid min_voters = (none, e)) ∧
    (∀ p, dictGet e.proposals pid = some p → p.resolved = true →
      min_voters ≤ (non_abstain p).length →
      (resolve e pid min_voters).1 = some (evaluate e.strategy p)) := by
  refine ⟨resolve_unknown_eq e pid min_voters,
    fun p hp hlt => resolve_defer_eq e pid min_voters p hp hlt,
    fun p hp hres hge => ?_⟩
  rw [resolve_quorum_eq e pid min_voters p hp hge]

theorem resolve_blind_spec_witness :
    resolve wEngine "nonexistent" 1 = (none, wEngine) ∧
    (resolve (resolve wUnanEngine "p1" 1).2 "p1" 1).1 =
      some (evaluate (resolve wUnanEngine "p1" 1).2.strategy
        { wUnanProposal with resolved := true, accepted := true }) := by
  constructor
  · exact (resolve_blind_spec wEngine "nonexistent" 1).1 rfl
  · exact (resolve_blind_spec (resolve wUnanEngine "p1" 1).2 "p1" 1).2.2
      { wUnanProposal with resolved := true, accepted := true }
      rfl rfl (by decide)

/-! ## C9 — message bus send -/

theorem send_dead_eq (bus : MessageBus) (m : AgentMessage)
    (h : dictGet bus.agents m.to_agent = none) :
    send bus m =
      (false, { bus with message_count := bus.message_count + 1, dead_letters := bus.dead_letters ++ [m] }) := by
  unfold send
  simp [h]

theorem send_delivered_eq (bus : MessageBus) (m : AgentMessage)
    (inbox : List AgentMessage)
    (h : dictGet bus.agents m.to_agent = some inbox) :
    send bus m =
      (true, { bus with message_count := bus.message_count + 1, agents := dictSet bus.agents m.to_agent (inbox ++ [m]) }) := by
  unfold send
  simp [h]

/-- C9: every send — dead-lettered or not — increments the message
counter by exactly one; sending to an unregistered recipient appends the
message to the dead-letter list (growing it by exactly one) and reports
delivered=false; sending to a registered recipient appends to that
recipient's inbox and reports delivered=true without touching the
dead-letter list. -/
theorem send_spec (bus : MessageBus) (m : AgentMessage) :
    ((send bus m).2.message_count = bus.message_count + 1) ∧
    (dictGet bus.agents m.to_agent = none →
      (send bus m).1 = false ∧
      (send bus m).2.dead_letters = bus.dead_letters ++ [m] ∧
      (send bus m).2.dead_letters.length = bus.dead_letters.length + 1) ∧
    (∀ inbox, dictGet bus.agents m.to_agent = some inbox →
      (send bus m).1 = true ∧
      dictGet (send bus m).2.agents m.to_agent = some (inbox ++ [m]) ∧
      (send bus m).2.dead_letters = bus.dead_letters) := by
  refine ⟨?_, fun h => ?_, fun inbox h => ?_⟩
  · cases hg : dictGet bus.agents m.to_agent with
    | none => rw [send_dead_eq bus m hg]
    | some inbox => rw [send_delivered_eq bus m inbox hg]
  · rw [send_dead_eq bus m h]
    exact ⟨rfl, rfl, by simp⟩
  · rw [send_delivered_eq bus m inbox h]
    exact ⟨rfl, dictGet_dictSet_self bus.agents m.to_agent _, rfl⟩

def wBus : MessageBus := { agents := [("x", [])] }

def wMsgToY : AgentMessage :=
  { from_agent := "x", to_agent := "y", content := "hello" }

def wMsgToX : AgentMessage :=
  { from_agent := "y", to_agent := "x", content := "hi" }

theorem send_spec_witness :
    ((send wBus wMsgToY).2.message_count = wBus.message_count + 1 ∧
      (send wBus wMsgToY).1 = false ∧
      (send wBus wMsgToY).2.dead_letters.length =
        wBus.dead_letters.length + 1) ∧
    ((send wBus wMsgToX).1 = true ∧
      dictGet (send wBus wMsgToX).2.agents "x" = some [wMsgToX]) := by
  have h1 := send_spec wBus wMsgToY
  have h2 := (send_spec wBus wMsgToX).2.2 [] rfl
  exact ⟨⟨h1.1, (h1.2.1 rfl).1, (h1.2.1 rfl).2.2⟩, h2.1, h2.2.1⟩

/-! ## C1 — concurrency bound -/

def ok_oracle : Oracle := fun n => Except.ok ("r" ++ toString n)

def three_tasks : List Task :=
  [{ id := "a", title := "A", description := "" },
   { id := "b", title := "B", description := "" },
   { id := "c", title := "C", description := "" }]

def wave_state : OrchState :=
  { init_state 2 with dag := three_tasks.foldl add_task ([] : TaskDAG) }

/-- C1 (code defect): no pool operation ever touches the semaphore the
constructor creates, and launching a wave of 3 ready tasks on a pool
configured with max_agents = 2 puts 3 workers simultaneously in the
working state — the third acquisition does not wait. -/
theorem pool_wave_exceeds_max_agents :
    (∀ (pool : AgentPool) (role : AgentRole) (agent_id : String),
      (acquire pool role).2.semaphore = pool.semaphore ∧
      (release pool agent_id).semaphore = pool.semaphore ∧
      (spawn pool role).2.semaphore = pool.semaphore) ∧
    working_count
      (launch_wave ok_oracle wave_state (get_ready_tasks wave_state.dag)).2.pool
      = 3 ∧
    (launch_wave ok_oracle wave_state (get_ready_tasks wave_state.dag)).2.pool.max_agents
      = 2 ∧
    (launch_wave ok_oracle wave_state (get_ready_tasks wave_state.dag)).2.pool.semaphore
      = 2 := by
  refine ⟨fun pool role agent_id => ⟨?_, rfl, rfl⟩, ?_, rfl, rfl⟩
  · unfold acquire
    cases get_idle pool role <;> rfl
  · rfl

/-! ## C5 — deadlock policy -/

/-- The invariant every graph built through add_task satisfies: keys are
distinct and each task is stored under its own id. -/
def WellFormedDag (dag : TaskDAG) : Prop :=
  (dag.map Prod.fst).Nodup ∧ ∀ entry ∈ dag, entry.2.id = entry.1

theorem wf_dictGet_of_mem : ∀ {dag : TaskDAG}, WellFormedDag dag →
    ∀ {k : String} {v : Task}, (k, v) ∈ dag → dictGet dag k = some v := by
  intro dag
  induction dag with
  | nil =>
      intro _ k v hv
      simp at hv
  | cons e rest ih =>
      intro hwf k v hv
      obtain ⟨k0, v0⟩ := e
      obtain ⟨hnd, hids⟩ := hwf
      simp only [List.map_cons, List.nodup_cons] at hnd
      rcases List.mem_cons.mp hv with hv' | hv'
      · rw [Prod.mk.injEq] at hv'
        simp only [dictGet]
        rw [if_pos hv'.1.symm, hv'.2]
      · have hk : ¬ k0 = k := by
          intro he
          subst he
          exact hnd.1 (List.mem_map_of_mem Prod.fst hv')
        simp only [dictGet]
        rw [if_neg hk]
        exact ih ⟨hnd.2, fun x hx => hids x (List.mem_cons_of_mem _ hx)⟩ hv'

theorem pending_ids_nodup {dag : TaskDAG} (hwf : WellFormedDag dag) :
    ((pending_tasks dag).map Task.id).Nodup := by
  have hsub : List.Sublist ((pending_tasks dag).map Task.id)
      ((all_tasks dag).map Task.id) :=
    List.Sublist.map _ (List.filter_sublist _)
  have heq : (all_tasks dag).map Task.id = dag.map Prod.fst := by
    unfold all_tasks dictValues
    rw [List.map_map]
    exact List.map_congr_left fun e he => hwf.2 e he
  rw [heq] at hsub
  exact List.Nodup.sublist hsub hwf.1

theorem foldl_mark_failed_get (R : List Task) (d : TaskDAG) (k msg : String)
    (hnd : (R.map Task.id).Nodup) :
    dictGet (R.foldl (fun d t => mark_failed d t.id msg) d) k =
      if k ∈ R.map Task.id then
        (dictGet d k).map
          (fun v => { v with status := TaskStatus.failed, error := some msg })
      else dictGet d k := by
  induction R generalizing d with
  | nil => simp
  | cons t R ih =>
      simp only [List.map_cons, List.nodup_cons] at hnd
      simp only [List.foldl_cons, List.map_cons]
      by_cases hk : t.id = k
      · subst hk
        rw [ih _ hnd.2, if_neg hnd.1, if_pos (List.mem_cons_self _ _)]
        unfold mark_failed
        rw [dictGet_dictModify_self]
      · rw [ih _ hnd.2]
        unfold mark_failed
        rw [dictGet_dictModify_ne _ _ _ _ (Ne.symm hk)]
        have hmem : (k ∈ t.id :: R.map Task.id) ↔ (k ∈ R.map Task.id) := by
          simp [Ne.symm hk]
        rw [if_congr hmem rfl rfl]

theorem wave_loop_deadlock_eq (oracle : Oracle) (fuel : ℕ) (st : OrchState)
    (hnc : is_complete st.dag = false)
    (hnr : get_ready_tasks st.dag = [])
    (hpe : pending_tasks st.dag ≠ []) :
    wave_loop oracle (fuel + 1) st =
      ([deadlock_update],
        { st with dag := (pending_tasks st.dag).foldl (fun d t => mark_failed d t.id deadlock_error) st.dag },
        true) := by
  have hie : (pending_tasks st.dag).isEmpty = false := by
    cases h : pending_tasks st.dag with
    | nil => exact absurd h hpe
    | cons a l => rfl
  unfold wave_loop
  rw [hnc, hnr]
  simp [hie]

def deadlock_cfg : OrchConfig :=
  { parse_eval := fun _ => some ("swarm", "complex"),
    parse_tasks := fun _ =>
      some [{ id := "t1", title := "A", description := "d",
              depends_on := ["nonexistent"] }] }

def deadlock_run : List SwarmUpdate × RunExit × OrchState :=
  execute_goal ok_oracle deadlock_cfg "goal" ""

/-- C5: whenever the ready set is empty while the graph is not complete,
the wave loop yields the single deadlock error update, marks every
remaining pending task failed with the deadlock error while leaving
every other task untouched, and stops; and in the end-to-end run over a
graph whose only task depends on a nonexistent id, that task is never
ready, the run ends with it failed with the deadlock error, and the
stream carries exactly one error update, placed before the single final
result update. -/
theorem deadlock_policy_spec :
    (∀ (oracle : Oracle) (fuel : ℕ) (st : OrchState), WellFormedDag st.dag →
      is_complete st.dag = false → get_ready_tasks st.dag = [] →
      pending_tasks st.dag ≠ [] →
      (wave_loop oracle (fuel + 1) st).1 = [deadlock_update] ∧
      (wave_loop oracle (fuel + 1) st).2.2 = true ∧
      ∀ k v, dictGet st.dag k = some v →
        dictGet (wave_loop oracle (fuel + 1) st).2.1.dag k =
          some (if v.status = TaskStatus.pending then { v with status := TaskStatus.failed, error := some deadlock_error } else v)) ∧
    (get_ready_tasks (decompose_dag deadlock_cfg.parse_tasks "goal" "r1") = [] ∧
     deadlock_run.1 =
       [{ update_type := "status", content := "Evaluating goal complexity..." },
        { update_type := "status", content := "Strategy: **swarm** — complex" },
        { update_type := "status", content := "Decomposing goal into tasks..." },
        { update_type := "status", content := "Plan created: 1 tasks\n  [ ] t1: A (depends on: nonexistent)" },
        deadlock_update,
        { update_type := "status", content := "Synthesizing final answer..." },
        { update_type := "result", content := "r2", is_final := true }] ∧
     deadlock_run.1.filter (fun u => u.update_type = "error") =
       [deadlock_update] ∧
     deadlock_run.1.getLast? =
       some { update_type := "result", content := "r2", is_final := true } ∧
     get_task deadlock_run.2.2.dag "t1" =
       some { id := "t1", title := "A", description := "d",
              depends_on := ["nonexistent"], status := TaskStatus.failed,
              error := some deadlock_error }) := by
  constructor
  · intro oracle fuel st hwf hnc hnr hpe
    rw [wave_loop_deadlock_eq oracle fuel st hnc hnr hpe]
    refine ⟨rfl, rfl, fun k v hv => ?_⟩
    show dictGet ((pending_tasks st.dag).foldl
      (fun d t => mark_failed d t.id deadlock_error) st.dag) k = _
    rw [foldl_mark_failed_get _ _ _ _ (pending_ids_nodup hwf)]
    by_cases hvp : v.status = TaskStatus.pending
    · have hkv := dictGet_mem hv
      have hid : v.id = k := hwf.2 (k, v) hkv
      have hmem : k ∈ (pending_tasks st.dag).map Task.id := by
        refine List.mem_map.mpr ⟨v, ?_, hid⟩
        unfold pending_tasks
        rw [List.mem_filter]
        exact ⟨List.mem_map_of_mem Prod.snd hkv, by simp [hvp]⟩
      rw [if_pos hmem, hv, if_pos hvp]
      rfl
    · have hmem : k ∉ (pending_tasks st.dag).map Task.id := by
        intro hk
        obtain ⟨t, ht, hid⟩ := List.mem_map.mp hk
        unfold pending_tasks at ht
        rw [List.mem_filter] at ht
        obtain ⟨htm, htp⟩ := ht
        obtain ⟨e, he, hesnd⟩ := List.mem_map.mp htm
        obtain ⟨k2, t2⟩ := e
        cases hesnd
        have hk2 : k2 = k := (hwf.2 (k2, t2) he).symm.trans hid
        subst hk2
        have hgt : dictGet st.dag k2 = some t2 := wf_dictGet_of_mem hwf he
        rw [hv] at hgt
        cases hgt
        simp at htp
        exact hvp htp
      rw [if_neg hmem, hv, if_neg hvp]
  · refine ⟨rfl, rfl, rfl, rfl, rfl⟩

def wDeadTask : Task :=
  { id := "t1", title := "A", description := "d",
    depends_on := ["nonexistent"] }

def wDeadSt : OrchState := { init_state 5 with dag := [("t1", wDeadTask)] }

theorem deadlock_policy_spec_witness :
    (wave_loop ok_oracle 1 wDeadSt).1 = [deadlock_update] ∧
    dictGet (wave_loop ok_oracle 1 wDeadSt).2.1.dag "t1" =
      some { wDeadTask with status := TaskStatus.failed, error := some deadlock_error } := by
  have h := deadlock_policy_spec.1 ok_oracle 0 wDeadSt
    ⟨by decide, by decide⟩ rfl rfl (by decide)
  refine ⟨h.1, ?_⟩
  have h3 := h.2.2 "t1" wDeadTask rfl
  simpa using h3

/-! ## C2 — terminal-update discipline of the progress stream -/

theorem process_wave_results_nonfinal :
    ∀ (launched : List (Task × String × Except String String))
      (st : OrchState),
      ∀ u ∈ (process_wave_results st launched).1, u.is_final = false := by
  intro launched
  induction launched with
  | nil =>
      intro st u hu
      simp [process_wave_results] at hu
  | cons e rest ih =>
      intro st u hu
      obtain ⟨task, aid, res⟩ := e
      cases res with
      | error err =>
          simp only [process_wave_results, List.mem_cons] at hu
          rcases hu with rfl | hu
          · rfl
          · exact ih _ u hu
      | ok r =>
          simp only [process_wave_results, List.mem_cons] at hu
          rcases hu with rfl | hu
          · rfl
          · exact ih _ u hu

theorem wave_loop_nonfinal (oracle : Oracle) :
    ∀ (fuel : ℕ) (st : OrchState), ∀ u ∈ (wave_loop oracle fuel st).1,
      u.is_final = false := by
  intro fuel
  induction fuel with
  | zero =>
      intro st u hu
      simp [wave_loop] at hu
  | succ n ih =>
      intro st u hu
      unfold wave_loop at hu
      by_cases hc : is_complete st.dag = true
      · simp [hc] at hu
      · rw [if_neg hc] at hu
        cases hr : get_ready_tasks st.dag with
        | nil =>
            rw [hr] at hu
            by_cases he : (pending_tasks st.dag).isEmpty = true
            · simp [he] at hu
            · rw [if_neg he] at hu
              rw [List.mem_singleton] at hu
              subst hu
              rfl
        | cons t ts =>
            rw [hr] at hu
            rcases List.mem_cons.mp hu with rfl | hu'
            · rfl
            · rcases List.mem_append.mp hu' with hu'' | hu''
              · exact process_wave_results_nonfinal _ _ u hu''
              · exact ih _ u hu''

/-- The invariant C2 is about: a run either finished, with exactly one
final update (a result) closing the stream, or ended in a propagated
backend error with no final update at all. -/
def TerminalShape (oracle : Oracle)
    (r : List SwarmUpdate × RunExit × OrchState) : Prop :=
  (r.2.1 = RunExit.finished ∧
    ∃ pre u, r.1 = pre ++ [u] ∧ (∀ v ∈ pre, v.is_final = false) ∧
      u.is_final = true ∧ u.update_type = "result") ∨
  ((∃ n s, oracle n = Except.error s) ∧
    (∃ e, r.2.1 = RunExit.raised e) ∧
    ∀ v ∈ r.1, v.is_final = false)

theorem synthesis_step_shape (oracle : Oracle) (ups : List SwarmUpdate)
    (st : OrchState) (hups : ∀ v ∈ ups, v.is_final = false) :
    TerminalShape oracle (synthesis_step oracle ups st) := by
  unfold TerminalShape synthesis_step
  cases h : oracle st.calls with
  | error e =>
      right
      refine ⟨⟨_, _, h⟩, ⟨e, rfl⟩, fun v hv => ?_⟩
      rcases List.mem_append.mp hv with hv | hv
      · exact hups v hv
      · rw [List.mem_singleton] at hv
        subst hv
        rfl
  | ok final =>
      left
      refine ⟨rfl, _, _, rfl, fun v hv => ?_, rfl, rfl⟩
      rcases List.mem_append.mp hv with hv | hv
      · exact hups v hv
      · rw [List.mem_singleton] at hv
        subst hv
        rfl

theorem direct_step_shape (oracle : Oracle) (ups : List SwarmUpdate)
    (st : OrchState) (hups : ∀ v ∈ ups, v.is_final = false) :
    TerminalShape oracle (direct_step oracle ups st) := by
  unfold TerminalShape direct_step
  cases h : oracle st.calls with
  | error e =>
      right
      refine ⟨⟨_, _, h⟩, ⟨e, rfl⟩, fun v hv => ?_⟩
      rcases List.mem_append.mp hv with hv | hv
      · exact hups v hv
      · rw [List.mem_singleton] at hv
        subst hv
        rfl
  | ok content =>
      left
      refine ⟨rfl, _, _, rfl, fun v hv => ?_, rfl, rfl⟩
      rcases List.mem_append.mp hv with hv | hv
      · exact hups v hv
      · rw [List.mem_singleton] at hv
        subst hv
        rfl

theorem forall_mem_singleton_nonfinal (u : SwarmUpdate)
    (h : u.is_final = false) : ∀ v ∈ [u], v.is_final = false := by
  intro v hv
  rw [List.mem_singleton] at hv
  subst hv
  exact h

theorem critic_step_shape (oracle : Oracle) (ups : List SwarmUpdate)
    (st : OrchState) (hups : ∀ v ∈ ups, v.is_final = false) :
    TerminalShape oracle (critic_step oracle ups st) := by
  have hups5 : ∀ v ∈ ups ++
      [({ update_type := "status",
          content := "Critic reviewing results..." } : SwarmUpdate)],
      v.is_final = false :=
    List.forall_mem_append.mpr ⟨hups, forall_mem_singleton_nonfinal _ rfl⟩
  simp only [critic_step]
  split
  next e heq =>
    exact Or.inr ⟨⟨_, _, heq⟩, ⟨e, rfl⟩, hups5⟩
  next review heq =>
    exact synthesis_step_shape oracle _ _
      (List.forall_mem_append.mpr
        ⟨hups5, forall_mem_singleton_nonfinal _ rfl⟩)

theorem swarm_step_shape (oracle : Oracle) (cfg : OrchConfig)
    (goal : String) (ups : List SwarmUpdate) (st : OrchState)
    (hups : ∀ v ∈ ups, v.is_final = false) :
    TerminalShape oracle (swarm_step oracle cfg goal ups st) := by
  have hups2 : ∀ v ∈ ups ++
      [({ update_type := "status",
          content := "Decomposing goal into tasks..." } : SwarmUpdate)],
      v.is_final = false :=
    List.forall_mem_append.mpr ⟨hups, forall_mem_singleton_nonfinal _ rfl⟩
  simp only [swarm_step]
  split
  next e heq =>
    exact Or.inr ⟨⟨_, _, heq⟩, ⟨e, rfl⟩, hups2⟩
  next response2 heq =>
    split
    next hcrit =>
      exact critic_step_shape oracle _ _
        (List.forall_mem_append.mpr
          ⟨List.forall_mem_append.mpr
            ⟨hups2, forall_mem_singleton_nonfinal _ rfl⟩,
           fun v hv => wave_loop_nonfinal oracle _ _ v hv⟩)
    next hcrit =>
      exact synthesis_step_shape oracle _ _
        (List.forall_mem_append.mpr
          ⟨List.forall_mem_append.mpr
            ⟨hups2, forall_mem_singleton_nonfinal _ rfl⟩,
           fun v hv => wave_loop_nonfinal oracle _ _ v hv⟩)

theorem execute_goal_shape (oracle : Oracle) (cfg : OrchConfig)
    (goal context : String) :
    TerminalShape oracle (execute_goal oracle cfg goal context) := by
  simp only [execute_goal]
  split
  next e heq =>
    exact Or.inr ⟨⟨_, _, heq⟩, ⟨e, rfl⟩,
      forall_mem_singleton_nonfinal _ rfl⟩
  next response heq =>
    split
    next hdir =>
      exact direct_step_shape oracle _ _
        (List.forall_mem_append.mpr
          ⟨forall_mem_singleton_nonfinal _ rfl,
           forall_mem_singleton_nonfinal _ rfl⟩)
    next hdir =>
      exact swarm_step_shape oracle cfg goal _ _
        (List.forall_mem_append.mpr
          ⟨forall_mem_singleton_nonfinal _ rfl,
           forall_mem_singleton_nonfinal _ rfl⟩)

/-- C2 amended: when the completion backend never raises, the update
sequence is finite and ends with exactly one terminal update — the last
one, a result; when the backend raises its providers-exhausted error
outside per-task execution, the exception propagates to the caller and
the sequence ends without any terminal update (per-task backend errors
are instead converted into non-terminal error updates by the wave loop
and do not end the run). -/
theorem execute_goal_terminal_spec (oracle : Oracle) (cfg : OrchConfig)
    (goal context : String) :
    ((∀ n, ∃ s, oracle n = Except.ok s) →
      (execute_goal oracle cfg goal context).2.1 = RunExit.finished ∧
      ((execute_goal oracle cfg goal context).1.filter
        fun u => u.is_final).length = 1 ∧
      ∃ u, (execute_goal oracle cfg goal context).1.getLast? = some u ∧
        u.is_final = true ∧ u.update_type = "result") ∧
    (∀ e, (execute_goal oracle cfg goal context).2.1 = RunExit.raised e →
      ((execute_goal oracle cfg goal context).1.filter
        fun u => u.is_final).length = 0) := by
  have hshape := execute_goal_shape oracle cfg goal context
  constructor
  · intro hok
    rcases hshape with ⟨hfin, pre, u, heq, hpre, hu, hty⟩ | ⟨⟨n, s, hbad⟩, _, _⟩
    · have hpref : pre.filter (fun u => u.is_final) = [] :=
        List.filter_eq_nil_iff.mpr fun v hv => by simp [hpre v hv]
      refine ⟨hfin, ?_, ?_⟩
      · rw [heq, List.filter_append, hpref]
        simp [hu]
      · rw [heq, List.getLast?_concat]
        exact ⟨u, rfl, hu, hty⟩
    · obtain ⟨s', hs'⟩ := hok n
      rw [hbad] at hs'
      cases hs'
  · intro e he
    rcases hshape with ⟨hfin, _⟩ | ⟨_, _, hnf⟩
    · rw [hfin] at he
      cases he
    · rw [List.filter_eq_nil_iff.mpr fun v hv => by simp [hnf v hv]]
      rfl

def failing_oracle : Oracle := fun _ => Except.error "All providers failed"

theorem execute_goal_terminal_spec_witness :
    ((execute_goal ok_oracle deadlock_cfg "goal" "").2.1 =
        RunExit.finished ∧
      ((execute_goal ok_oracle deadlock_cfg "goal" "").1.filter
        fun u => u.is_final).length = 1) ∧
    ((execute_goal failing_oracle deadlock_cfg "goal" "").1.filter
      fun u => u.is_final).length = 0 := by
  have h := (execute_goal_terminal_spec ok_oracle deadlock_cfg "goal" "").1
    (fun n => ⟨"r" ++ toString n, rfl⟩)
  have h2 := (execute_goal_terminal_spec failing_oracle deadlock_cfg
    "goal" "").2 "All providers failed" rfl
  exact ⟨⟨h.1, h.2.1⟩, h2⟩

/-! ### Fuel adequacy of the wave loop

Python's wave loop is unbounded; the model's is fuel-indexed. The lemmas
below show the fuel execute_goal passes is never exhausted: on every
well-formed graph each executed wave strictly decreases the number of
pending tasks, so the loop exits through its own conditions (flag true)
whenever the fuel exceeds the pending count — and the pending count is at
most the graph size. -/

def pending_count (dag : TaskDAG) : ℕ := (pending_tasks dag).length

theorem pending_count_cons (e : String × Task) (d : TaskDAG) :
    pending_count (e :: d) =
      (if e.2.status = TaskStatus.pending then 1 else 0) + pending_count d := by
  by_cases h : e.2.status = TaskStatus.pending
  · simp [pending_count, pending_tasks, all_tasks, dictValues,
      List.filter_cons, h, Nat.add_comm]
  · simp [pending_count, pending_tasks, all_tasks, dictValues,
      List.filter_cons, h]

theorem pending_count_dictModify_le (d : TaskDAG) (k : String)
    (f : Task → Task)
    (hf : ∀ v, (f v).status = TaskStatus.pending →
      v.status = TaskStatus.pending) :
    pending_count (dictModify d k f) ≤ pending_count d := by
  induction d with
  | nil => simp [dictModify]
  | cons e rest ih =>
      obtain ⟨k0, v0⟩ := e
      simp only [dictModify]
      by_cases h : k0 = k
      · rw [if_pos h, pending_count_cons, pending_count_cons]
        refine Nat.add_le_add ?_ (Nat.le_refl _)
        by_cases hp : (f v0).status = TaskStatus.pending
        · simp [hp, hf v0 hp]
        · simp [hp]
      · rw [if_neg h, pending_count_cons, pending_count_cons]
        exact Nat.add_le_add (Nat.le_refl _) ih

theorem pending_count_dictModify_lt (d : TaskDAG) (k : String)
    (f : Task → Task) (v : Task) (hget : dictGet d k = some v)
    (hv : v.status = TaskStatus.pending)
    (hf : ∀ w, ¬ (f w).status = TaskStatus.pending) :
    pending_count (dictModify d k f) < pending_count d := by
  induction d with
  | nil => simp [dictGet] at hget
  | cons e rest ih =>
      obtain ⟨k0, v0⟩ := e
      simp only [dictModify]
      by_cases h : k0 = k
      · rw [if_pos h, pending_count_cons, pending_count_cons]
        simp only [dictGet, if_pos h] at hget
        cases hget
        rw [if_neg (hf _), if_pos hv]
        omega
      · rw [if_neg h, pending_count_cons, pending_count_cons]
        simp only [dictGet, if_neg h] at hget
        exact Nat.add_lt_add_left (ih hget) _

theorem dictModify_keys {α : Type} (d : List (String × α)) (k : String)
    (f : α → α) : (dictModify d k f).map Prod.fst = d.map Prod.fst := by
  induction d with
  | nil => simp [dictModify]
  | cons e rest ih =>
      obtain ⟨k0, v0⟩ := e
      simp only [dictModify]
      by_cases h : k0 = k
      · simp [h]
      · simp [h, ih]

theorem wf_dictModify (d : TaskDAG) (k : String) (f : Task → Task)
    (hf : ∀ v, (f v).id = v.id) (hwf : WellFormedDag d) :
    WellFormedDag (dictModify d k f) := by
  refine ⟨by rw [dictModify_keys]; exact hwf.1, ?_⟩
  intro entry hentry
  induction d with
  | nil => simp [dictModify] at hentry
  | cons e rest ih =>
      obtain ⟨k0, v0⟩ := e
      simp only [dictModify] at hentry
      by_cases h : k0 = k
      · rw [if_pos h] at hentry
        rcases List.mem_cons.mp hentry with rfl | hmem
        · show (f v0).id = k0
          rw [hf v0]
          exact hwf.2 (k0, v0) (List.mem_cons_self _ _)
        · exact hwf.2 entry (List.mem_cons_of_mem _ hmem)
      · rw [if_neg h] at hentry
        rcases List.mem_cons.mp hentry with rfl | hmem
        · exact hwf.2 (k0, v0) (List.mem_cons_self _ _)
        · exact ih ⟨(List.nodup_cons.mp (by simpa using hwf.1)).2,
            fun x hx => hwf.2 x (List.mem_cons_of_mem _ hx)⟩ hmem

theorem launch_task_dag_pc_le (oracle : Oracle) (st : OrchState)
    (t : Task) :
    pending_count (launch_task oracle st t).2.dag ≤ pending_count st.dag := by
  refine Nat.le_trans (pending_count_dictModify_le _ _ _ ?_)
    (pending_count_dictModify_le _ _ _ ?_)
  · intro v h
    exact h
  · intro v h
    simp [mark_in_progress] at h

theorem launch_task_dag_wf (oracle : Oracle) (st : OrchState) (t : Task)
    (hwf : WellFormedDag st.dag) :
    WellFormedDag (launch_task oracle st t).2.dag := by
  exact wf_dictModify _ _ _ (fun v => rfl)
    (wf_dictModify _ _ _ (fun v => rfl) hwf)

theorem launch_task_dag_pc_lt (oracle : Oracle) (st : OrchState)
    (t : Task) (v : Task) (hget : dictGet st.dag t.id = some v)
    (hv : v.status = TaskStatus.pending) :
    pending_count (launch_task oracle st t).2.dag < pending_count st.dag := by
  refine Nat.lt_of_le_of_lt (pending_count_dictModify_le _ _ _ ?_) ?_
  · intro w h
    exact h
  · exact pending_count_dictModify_lt _ _ _ v hget hv
      (fun w => by simp [mark_in_progress])

theorem launch_wave_dag_pc_le (oracle : Oracle) :
    ∀ (l : List Task) (st : OrchState),
      pending_count (launch_wave oracle st l).2.dag ≤ pending_count st.dag := by
  intro l
  induction l with
  | nil =>
      intro st
      exact Nat.le_refl _
  | cons t rest ih =>
      intro st
      exact Nat.le_trans (ih _) (launch_task_dag_pc_le oracle st t)

theorem launch_wave_dag_wf (oracle : Oracle) :
    ∀ (l : List Task) (st : OrchState), WellFormedDag st.dag →
      WellFormedDag (launch_wave oracle st l).2.dag := by
  intro l
  induction l with
  | nil =>
      intro st h
      exact h
  | cons t rest ih =>
      intro st h
      exact ih _ (launch_task_dag_wf oracle st t h)

theorem launch_wave_dag_pc_lt (oracle : Oracle) (st : OrchState)
    (t : Task) (rest : List Task) (v : Task)
    (hget : dictGet st.dag t.id = some v)
    (hv : v.status = TaskStatus.pending) :
    pending_count (launch_wave oracle st (t :: rest)).2.dag <
      pending_count st.dag :=
  Nat.lt_of_le_of_lt (launch_wave_dag_pc_le oracle rest _)
    (launch_task_dag_pc_lt oracle st t v hget hv)

theorem mark_completed_dag_pc_le (d : TaskDAG) (id : String)
    (r : Option String) :
    pending_count (mark_completed d id r).2 ≤ pending_count d := by
  unfold mark_completed
  cases h : dictGet d id with
  | none => exact Nat.le_refl _
  | some v =>
      exact pending_count_dictModify_le _ _ _ (fun w hw => by simp at hw)

theorem mark_completed_dag_wf (d : TaskDAG) (id : String)
    (r : Option String) (hwf : WellFormedDag d) :
    WellFormedDag (mark_completed d id r).2 := by
  unfold mark_completed
  cases h : dictGet d id with
  | none => exact hwf
  | some v => exact wf_dictModify _ _ _ (fun w => rfl) hwf

theorem process_wave_results_dag_pc_le :
    ∀ (launched : List (Task × String × Except String String))
      (st : OrchState),
      pending_count (process_wave_results st launched).2.dag ≤
        pending_count st.dag := by
  intro launched
  induction launched with
  | nil =>
      intro st
      exact Nat.le_refl _
  | cons e rest ih =>
      intro st
      obtain ⟨task, aid, res⟩ := e
      cases res with
      | error err =>
          refine Nat.le_trans (ih _) ?_
          exact pending_count_dictModify_le _ _ _ (fun w hw => by simp at hw)
      | ok r =>
          refine Nat.le_trans (ih _) ?_
          exact mark_completed_dag_pc_le st.dag task.id (some r)

theorem process_wave_results_dag_wf :
    ∀ (launched : List (Task × String × Except String String))
      (st : OrchState), WellFormedDag st.dag →
      WellFormedDag (process_wave_results st launched).2.dag := by
  intro launched
  induction launched with
  | nil =>
      intro st h
      exact h
  | cons e rest ih =>
      intro st h
      obtain ⟨task, aid, res⟩ := e
      cases res with
      | error err => exact ih _ (wf_dictModify _ _ _ (fun w => rfl) h)
      | ok r => exact ih _ (mark_completed_dag_wf st.dag task.id (some r) h)

theorem ready_head_pending {dag : TaskDAG} {t : Task}
    (hwf : WellFormedDag dag) (ht : t ∈ get_ready_tasks dag) :
    dictGet dag t.id = some t ∧ t.status = TaskStatus.pending := by
  unfold get_ready_tasks at ht
  rw [List.mem_filter] at ht
  obtain ⟨htm, hcond⟩ := ht
  rw [Bool.and_eq_true, decide_eq_true_eq] at hcond
  obtain ⟨e, he, hesnd⟩ := List.mem_map.mp htm
  obtain ⟨k2, t2⟩ := e
  cases hesnd
  have hid : t2.id = k2 := hwf.2 (k2, t2) he
  refine ⟨?_, hcond.1⟩
  rw [hid]
  exact wf_dictGet_of_mem hwf he

theorem wave_loop_fuel_adequate (oracle : Oracle) :
    ∀ (fuel : ℕ) (st : OrchState), WellFormedDag st.dag →
      pending_count st.dag < fuel →
      (wave_loop oracle fuel st).2.2 = true := by
  intro fuel
  induction fuel with
  | zero =>
      intro st hwf hlt
      exact absurd hlt (Nat.not_lt_zero _)
  | succ n ih =>
      intro st hwf hlt
      unfold wave_loop
      by_cases hc : is_complete st.dag = true
      · simp [hc]
      · rw [if_neg hc]
        cases hr : get_ready_tasks st.dag with
        | nil =>
            by_cases he : (pending_tasks st.dag).isEmpty = true
            · rw [if_pos he]
            · rw [if_neg he]
        | cons t ts =>
            have hhead := ready_head_pending hwf
              (hr ▸ List.mem_cons_self t ts)
            have hlt2 : pending_count (process_wave_results
                { (launch_wave oracle st (t :: ts)).2 with
                  pool := release_wave (launch_wave oracle st (t :: ts)).2.pool
                    (launch_wave oracle st (t :: ts)).1 }
                (launch_wave oracle st (t :: ts)).1).2.dag <
                pending_count st.dag :=
              Nat.lt_of_le_of_lt (process_wave_results_dag_pc_le _ _)
                (launch_wave_dag_pc_lt oracle st t ts t hhead.1 hhead.2)
            have hwf2 : WellFormedDag (process_wave_results
                { (launch_wave oracle st (t :: ts)).2 with
                  pool := release_wave (launch_wave oracle st (t :: ts)).2.pool
                    (launch_wave oracle st (t :: ts)).1 }
                (launch_wave oracle st (t :: ts)).1).2.dag :=
              process_wave_results_dag_wf _ _
                (launch_wave_dag_wf oracle (t :: ts) st hwf)
            exact ih _ hwf2 (Nat.lt_of_lt_of_le hlt2 (Nat.lt_succ_iff.mp hlt))

theorem dictSet_mem {α : Type} {d : List (String × α)} {k : String}
    {v : α} : ∀ e ∈ dictSet d k v, e = (k, v) ∨ e ∈ d := by
  induction d with
  | nil =>
      intro e he
      simp [dictSet] at he
      left
      exact he
  | cons e0 rest ih =>
      obtain ⟨k0, v0⟩ := e0
      intro e he
      simp only [dictSet] at he
      by_cases h : k0 = k
      · rw [if_pos h] at he
        rcases List.mem_cons.mp he with rfl | hm
        · left
          rfl
        · right
          exact List.mem_cons_of_mem _ hm
      · rw [if_neg h] at he
        rcases List.mem_cons.mp he with rfl | hm
        · right
          exact List.mem_cons_self _ _
        · rcases ih e hm with h1 | h1
          · left
            exact h1
          · right
            exact List.mem_cons_of_mem _ h1

theorem dictSet_keys_nodup {α : Type} {d : List (String × α)} (k : String)
    (v : α) (h : (d.map Prod.fst).Nodup) :
    ((dictSet d k v).map Prod.fst).Nodup := by
  induction d with
  | nil => simp [dictSet]
  | cons e rest ih =>
      obtain ⟨k0, v0⟩ := e
      simp only [List.map_cons, List.nodup_cons] at h
      simp only [dictSet]
      by_cases hk : k0 = k
      · subst hk
        rw [if_pos rfl]
        simp only [List.map_cons, List.nodup_cons]
        exact ⟨h.1, h.2⟩
      · rw [if_neg hk]
        simp only [List.map_cons, List.nodup_cons]
        refine ⟨?_, ih h.2⟩
        intro hmem
        obtain ⟨e, he, hfst⟩ := List.mem_map.mp hmem
        rcases dictSet_mem e he with rfl | hm
        · exact hk hfst.symm
        · exact h.1 (hfst ▸ List.mem_map_of_mem Prod.fst hm)

theorem wf_add_task (d : TaskDAG) (t : Task) (hwf : WellFormedDag d) :
    WellFormedDag (add_task d t) := by
  refine ⟨dictSet_keys_nodup t.id t hwf.1, ?_⟩
  intro e he
  rcases dictSet_mem e he with rfl | hm
  · rfl
  · exact hwf.2 e hm

/-- Every graph the planner step builds is well-formed. -/
theorem decompose_dag_wf (pt : String → Option (List TaskDef))
    (goal resp : String) : WellFormedDag (decompose_dag pt goal resp) := by
  have hfold : ∀ (l : List TaskDef) (d : TaskDAG), WellFormedDag d →
      WellFormedDag (l.foldl (fun d td => add_task d (mk_task td)) d) := by
    intro l
    induction l with
    | nil =>
        intro d h
        exact h
    | cons td rest ih =>
        intro d h
        exact ih _ (wf_add_task _ _ h)
  unfold decompose_dag
  cases pt resp with
  | none => exact wf_add_task _ _ ⟨List.nodup_nil, by simp⟩
  | some tds => exact hfold tds [] ⟨List.nodup_nil, by simp⟩

theorem pending_count_le_length (dag : TaskDAG) :
    pending_count dag ≤ dag.length := by
  have h1 : (pending_tasks dag).length ≤ (all_tasks dag).length :=
    List.length_filter_le _ _
  have h2 : (all_tasks dag).length = dag.length := List.length_map _ _
  exact h2 ▸ h1

/-- The fuel execute_goal hands the wave loop (graph size + 1) is always
sufficient: on well-formed graphs — and decompose_dag_wf shows every
graph a run builds is well-formed — the loop exits through its own
conditions, so the model never truncates a run Python would continue. -/
theorem wave_loop_default_fuel_ok (oracle : Oracle) (st : OrchState)
    (hwf : WellFormedDag st.dag) :
    (wave_loop oracle (st.dag.length + 1) st).2.2 = true :=
  wave_loop_fuel_adequate oracle _ st hwf
    (Nat.lt_succ_of_le (pending_count_le_length st.dag))

/-- C2 counterexample: when the completion backend raises its
providers-exhausted error on the very first call of the run, the
generator propagates the exception: the yielded sequence contains no
update with the terminal flag and no error update at all, so the run
neither ends with a terminal update nor terminates with an error
update. -/
theorem execute_goal_exhaustion_counterexample :
    (execute_goal failing_oracle deadlock_cfg "goal" "").2.1 =
      RunExit.raised "All providers failed" ∧
    ((execute_goal failing_oracle deadlock_cfg "goal" "").1.filter
      fun u => u.is_final) = [] ∧
    ((execute_goal failing_oracle deadlock_cfg "goal" "").1.filter
      fun u => u.update_type = "error") = [] :=
  ⟨rfl, rfl, rfl⟩

end Nexus
